import Mathlib

/-!
# Verification of the `color-picker` canvas core (`src/cp2/canvas.py`)

Shallow embedding of the undo/redo history, the geometry helpers, the
scroll-clamping logic and the color-to-hex conversion of `cp2/canvas.py`,
together with proofs of the specification's claims about them.

Modelling conventions:
* Python integers are `ℤ` (or `ℕ` where the source keeps the value
  non-negative by an explicit guard); Python floats are modelled as exact
  rationals `ℚ`; Python strings are modelled as lists of characters.
* A Python operation that can raise an exception is embedded as an
  `Option`-valued function; `none` models the raised exception.
* Undo/redo *actions* are opaque: executing an action mutates the canvas
  or the document, never the history object itself, so execution is a
  no-op on the embedded history state.  Actions are represented by `ℕ`
  tokens so that lists of actions can be compared and can be empty or
  non-empty exactly as Python lists can be falsy or truthy.
* `canvas.reflect_transaction()` only updates the window title and
  schedules a repaint; it does not touch the history state and is
  therefore dropped from the embedding.
-/

/-- Opaque token standing for one undo/redo action `(callable, arg0, ...)`. -/
abbrev Act := ℕ

/-- A transaction `[undo_actions, redo_actions]` as passed to
`add_transaction`: a pair of action lists. -/
abbrev Transaction := List Act × List Act

/-- One entry of `UndoHistory.undo_stack`: a pair
`[undo_actions, redo_actions]` where either component may be Python `None`
(modelled by `Option.none`). -/
structure StackEntry where
  undoActs : Option (List Act)
  redoActs : Option (List Act)
  deriving DecidableEq, Repr

/-- The state of `UndoHistory` (canvas.py lines 42-84).  The `canvas` back
reference is omitted: the history never reads it, it only calls
`reflect_transaction` on it. `index` is kept as `ℕ` because the source
decrements it only under the guard `index > 0`; `saved_index` is `ℤ`
because the source documentation speaks about the value `-1`. -/
structure UndoHistory where
  undo_stack : List StackEntry
  index : ℕ
  saved_index : ℤ
  deriving DecidableEq, Repr

/-- Python truthiness of an optional list: `bool(None) = bool([]) = False`. -/
def truthy (o : Option (List Act)) : Bool :=
  match o with
  | none => false
  | some l => !l.isEmpty

namespace UndoHistory

/-- Embeds `UndoHistory.__init__`: `undo_stack = [[None, None]]` with the class
attributes `index = 0`, `saved_index = 0`. -/
def fresh : UndoHistory :=
  { undo_stack := [⟨none, none⟩], index := 0, saved_index := 0 }

/-- Reads `undo_stack[i]` via total indexing with the dummy entry `[None, None]`;
all theorems below only use it with `i` in range, where it agrees with
Python list indexing. -/
def entryAt (h : UndoHistory) (i : ℕ) : StackEntry :=
  h.undo_stack.getD i ⟨none, none⟩

/-- Embeds `is_undo`: `index > 0`. -/
def is_undo (h : UndoHistory) : Bool :=
  decide (0 < h.index)

/-- Embeds `is_redo`: `bool(self.undo_stack[self.index][1])`. -/
def is_redo (h : UndoHistory) : Bool :=
  truthy (h.entryAt h.index).redoActs

/-- Embeds `is_saved`: `index == saved_index`. -/
def is_saved (h : UndoHistory) : Bool :=
  decide ((h.index : ℤ) = h.saved_index)

/-- Embeds `set_saved`: `saved_index = index`. -/
def set_saved (h : UndoHistory) : UndoHistory :=
  { h with saved_index := (h.index : ℤ) }

/-- Embeds `add_transaction(transaction)` (lines 52-58): truncate the stack to
`index + 1` entries when not at the tip, store the transaction's redo
actions in the current tip, push `[transaction[0], None]` and increment
`index`.  Reading `undo_stack[-1]` on an empty stack would raise
`IndexError`, modelled by `none`. -/
def add_transaction (t : Transaction) (h : UndoHistory) : Option UndoHistory :=
  let stack := if h.index < h.undo_stack.length - 1
    then h.undo_stack.take (h.index + 1) else h.undo_stack
  match stack.getLast? with
  | none => none
  | some last =>
      some { h with
        undo_stack :=
          stack.dropLast ++ [⟨last.undoActs, some t.2⟩, ⟨some t.1, none⟩],
        index := h.index + 1 }

/-- Embeds `undo()` (lines 72-77): when `is_undo()`, iterate over
`undo_stack[index][0]` executing each action, then decrement `index`.
Indexing out of range (`IndexError`) or iterating over `None`
(`TypeError`) is modelled by `none`; executing the actions only affects
the canvas, not the history state. -/
def undo (h : UndoHistory) : Option UndoHistory :=
  if is_undo h then
    match h.undo_stack[h.index]? with
    | none => none
    | some e =>
        match e.undoActs with
        | none => none
        | some _acts => some { h with index := h.index - 1 }
  else some h

/-- Embeds `redo()` (lines 79-84): when `is_redo()`, execute
`undo_stack[index][1]` (a truthy list, so iteration cannot fail) and
increment `index`; otherwise a no-op. -/
def redo (h : UndoHistory) : Option UndoHistory :=
  if is_redo h then some { h with index := h.index + 1 } else some h

end UndoHistory

/-- One call to the history's mutating interface. -/
inductive HistOp where
  | add (t : Transaction)
  | undo
  | redo
  deriving DecidableEq, Repr

/-- Apply one call to the history. -/
def applyOp : HistOp → UndoHistory → Option UndoHistory
  | .add t, h => h.add_transaction t
  | .undo, h => h.undo
  | .redo, h => h.redo

/-- Run a sequence of calls; `none` as soon as one raises. -/
def runOps : List HistOp → UndoHistory → Option UndoHistory
  | [], h => some h
  | op :: ops, h =>
      match applyOp op h with
      | none => none
      | some h' => runOps ops h'

/-! ### The reachable shape of the undo stack

`buildStack u ts` is the undo stack obtained after pushing the
transactions of `ts` in order onto a tip entry whose undo part is `u`:
entry `i` carries the redo actions of transaction `i` and the undo
actions of transaction `i - 1`, and the final tip carries no redo
actions. -/
def buildStack (u : Option (List Act)) : List Transaction → List StackEntry
  | [] => [⟨u, none⟩]
  | t :: ts => ⟨u, some t.2⟩ :: buildStack (some t.1) ts

/-! ### Geometry helpers and scroll clamping (canvas.py lines 93-99,
468-475) -/

/-- Embeds `in_bbox(bbox, point)` (lines 93-94):
`bbox[0] < point[0] < bbox[2] and bbox[1] < point[1] < bbox[3]`.
Coordinates are modelled as exact rationals. -/
def in_bbox (bbox : ℚ × ℚ × ℚ × ℚ) (point : ℚ × ℚ) : Bool :=
  decide (bbox.1 < point.1 ∧ point.1 < bbox.2.2.1) &&
  decide (bbox.2.1 < point.2 ∧ point.2 < bbox.2.2.2)

/-- Embeds `Canvas.on_scroll(event)` (lines 468-475): add
`event.get_scroll() * config.mouse_scroll_sensitivity` to `dy`, then
clamp: if `dy < 0 or virtual_h <= height` set `dy = 0`, elif
`virtual_h > height and dy > virtual_h - height` set
`dy = virtual_h - height`.  The scroll delta, sensitivity and `dy` are
modelled as exact rationals. -/
def on_scroll (sensitivity virtual_h height dy delta : ℚ) : ℚ :=
  let dy' := dy + delta * sensitivity
  if dy' < 0 ∨ virtual_h ≤ height then 0
  else if virtual_h > height ∧ dy' > virtual_h - height then
    virtual_h - height
  else dy'

/-! ### Scrollbar thumb geometry (`ScrollObj.paint`, lines 263-281) -/

/-- The state fields written by `ScrollObj.paint`: the hit bbox of the
scrollbar track, the thumb bbox (`tbbox`), the scaling coefficient and
the `active` flag. -/
structure ScrollPaint where
  bbox : ℚ × ℚ × ℚ × ℚ
  tbbox : ℚ × ℚ × ℚ × ℚ
  coef : ℚ
  active : Bool
  deriving DecidableEq, Repr

/-- Embeds `ScrollObj.paint(ctx)` (lines 263-281).  The config constants
`config.scroll_hover` and `config.scroll_normal` are parameters; drawing
calls are dropped; `NO_BBOX = (0, 0, 0, 0)`.  When `virtual_h > h`:
`coef = h / virtual_h`, `rect_h = h * coef`, `rect_w = sw`,
`y = dy + dy * coef`, `tbbox = (w - rect_w, y, w, y + rect_h)`; and
finally `active = virtual_h > h`. -/
def ScrollObj_paint (scroll_hover scroll_normal : ℚ) (hover : Bool)
    (w h virtual_h dy : ℚ) : ScrollPaint :=
  let sw := if hover then scroll_hover else scroll_normal
  let bbox := (w - scroll_hover, (0 : ℚ), w, h)
  if virtual_h > h then
    let coef := h / virtual_h
    let rect_h := h * coef
    let rect_w := sw
    let y := dy + dy * coef
    { bbox := bbox, tbbox := (w - rect_w, y, w, y + rect_h),
      coef := coef, active := decide (virtual_h > h) }
  else
    { bbox := bbox, tbbox := (0, 0, 0, 0), coef := 1,
      active := decide (virtual_h > h) }

/-! ### Grid layout and the division-by-zero question (C4)

`Canvas.paint` (lines 511-521) computes
`cell_max = (w - 2*border) // cell_width` and then
`virtual_h = 2*border + math.ceil(cell_num / cell_max) * cell_h` with no
guard; `AddButtonObj.paint` (lines 293-301) computes
`y_count = cell_num // cell_max if cell_max else 0` with a guard.
Python `//` on integers is floor division (`Int.fdiv`); `/` is true
division, modelled exactly on `ℚ`; dividing by `0` with either operator
raises `ZeroDivisionError`, modelled by `none`. -/

/-- The add-button cell position computed by `AddButtonObj.paint`
(lines 297-301): `(x_count, y_count)` with the `if cell_max else 0`
guard.  Total: no division is performed when `cell_max` is 0. -/
def addButton_cell (cell_num cell_max : ℤ) : ℤ × ℤ :=
  let y_count := if cell_max ≠ 0 then Int.fdiv cell_num cell_max else 0
  let x_count := cell_num - cell_max * y_count
  (x_count, y_count)

/-- The layout prologue of `Canvas.paint` (lines 512-521): from the
viewport size `(w, h)` and the color count `cell_num`, compute
`cell_max`, `virtual_h`, `max_dy` and the re-clamped `dy`.  The config
constants `border = config.canvas_border`, `cell_w = config.cell_width`
and `cell_h = config.cell_height` are parameters.  `none` models a
`ZeroDivisionError` (`cell_num / cell_max` is unguarded in the source).
`round(virtual_h - h)` is the identity because both operands are
integers. -/
def canvas_paint_layout (border cell_w cell_h : ℤ) (w h cell_num : ℤ)
    (dy : ℚ) : Option (ℤ × ℤ × ℤ × ℚ) :=
  if cell_w = 0 then none
  else
    let cell_max := Int.fdiv (w - 2 * border) cell_w
    if cell_max = 0 then none
    else
      let virtual_h :=
        2 * border + Int.ceil ((cell_num : ℚ) / (cell_max : ℚ)) * cell_h
      let max_dy0 := virtual_h - h
      let max_dy := if max_dy0 > 0 then max_dy0 else 0
      some (cell_max, virtual_h, max_dy, min dy (max_dy : ℚ))

/-! ### Color-to-hex conversion (`color_to_hex`, lines 103-110)

Python strings are modelled as lists of characters; Python floats as
exact rationals.  Python `round` rounds half to even. -/

/-- Python `round` on an exact rational: nearest integer, ties to even. -/
def pyRound (q : ℚ) : ℤ :=
  let f := Int.floor q
  let r := q - (f : ℚ)
  if r < 1/2 then f
  else if 1/2 < r then f + 1
  else if f % 2 = 0 then f else f + 1

/-- The digits of `hex(n)` for `n ≥ 0` without the `0x` prefix:
lowercase base-16 digits, `"0"` for zero. -/
def hexDigits (n : ℕ) : List Char :=
  Nat.toDigits 16 n

/-- Python `hex(n)[2:]`: for `n ≥ 0` this strips `0x` leaving the
digits; for `n < 0`, `hex(n)` is `-0x...`, so `[2:]` leaves `'x'`
followed by the digits. -/
def pyHexSlice2 (n : ℤ) : List Char :=
  if 0 ≤ n then hexDigits n.toNat else 'x' :: hexDigits (-n).toNat

/-- Embeds `color_to_hex(color)` (lines 103-110): start from `"#"`, for each
channel append `hex(round(value * 255))[2:]` left-padded with `'0'` to
two characters, and finally uppercase the whole string. -/
def color_to_hex (color : List ℚ) : List Char :=
  (color.foldl (fun hexcolor value =>
      let hexval := pyHexSlice2 (pyRound (value * 255))
      let hexval := if hexval.length < 2 then '0' :: hexval else hexval
      hexcolor ++ hexval) ['#']).map Char.toUpper

/-- The specification's description of the hex label: round each channel
times 255 to the nearest integer, format as two-digit zero-padded
uppercase hex, and prefix `'#'`. -/
def specHexLabel (color : List ℚ) : List Char :=
  '#' :: (color.map (fun c =>
    let s := (hexDigits (pyRound (c * 255)).toNat).map Char.toUpper
    if s.length < 2 then '0' :: s else s)).flatten

/-! ## Theorems -/

/-! ### Generic helper lemmas about lists -/

theorem dropLast_take_of_le {α : Type*} {n : ℕ} {l : List α} (h : n ≤ l.length) :
    (l.take n).dropLast = l.take (n - 1) := by
  rcases eq_or_lt_of_le h with rfl | h
  · simp [List.dropLast_eq_take]
  · exact List.dropLast_take h

theorem getLast?_take_of_le {α : Type*} {i : ℕ} {l : List α} (h : i < l.length) :
    (l.take (i + 1)).getLast? = l[i]? := by
  rw [List.getLast?_eq_getElem?, List.length_take,
    Nat.min_eq_left (by omega), Nat.add_sub_cancel]
  exact List.getElem?_take_of_lt (by omega)

/-! ### Characterization of the history operations on well-indexed states -/

namespace UndoHistory

/-- On any state whose `index` is in range, `add_transaction` truncates the
stack to the first `index` entries, re-tips it with the transaction's redo
actions attached to the old entry at `index`, and pushes a fresh tip. -/
theorem add_transaction_eq (t : Transaction) (h : UndoHistory)
    (hwf : h.index < h.undo_stack.length) :
    h.add_transaction t =
      some { h with
        undo_stack := h.undo_stack.take h.index ++
          [⟨(h.entryAt h.index).undoActs, some t.2⟩, ⟨some t.1, none⟩],
        index := h.index + 1 } := by
  have hstack : (if h.index < h.undo_stack.length - 1
      then h.undo_stack.take (h.index + 1) else h.undo_stack) =
      h.undo_stack.take (h.index + 1) := by
    split
    · rfl
    · exact (List.take_of_length_le (by omega)).symm
  have hlast : (h.undo_stack.take (h.index + 1)).getLast? =
      some (h.entryAt h.index) := by
    rw [getLast?_take_of_le hwf, List.getElem?_eq_getElem hwf]
    simp [entryAt, List.getD_eq_getElem?_getD, List.getElem?_eq_getElem hwf]
  have hdrop : (h.undo_stack.take (h.index + 1)).dropLast =
      h.undo_stack.take h.index := by
    rw [dropLast_take_of_le (by omega), Nat.add_sub_cancel]
  simp only [add_transaction, hstack, hlast, hdrop]

/-- On any state whose `index` is in range and positive and whose entry at
`index` has a real (non-`None`) undo-action list, `undo` just decrements
`index`. -/
theorem undo_eq (h : UndoHistory)
    (hpos : 0 < h.index) (hwf : h.index < h.undo_stack.length)
    (hacts : (h.entryAt h.index).undoActs.isSome) :
    h.undo = some { h with index := h.index - 1 } := by
  have hu : h.is_undo = true := by simpa [is_undo] using hpos
  obtain ⟨acts, hacts'⟩ := Option.isSome_iff_exists.mp hacts
  have hget : h.undo_stack[h.index]? = some (h.entryAt h.index) := by
    rw [List.getElem?_eq_getElem hwf]
    simp [entryAt, List.getD_eq_getElem?_getD, List.getElem?_eq_getElem hwf]
  simp only [undo, hu, if_true, hget, hacts']

/-- The operation `undo` is a no-op on a state with `index = 0`. -/
theorem undo_eq_of_index_zero (h : UndoHistory) (h0 : h.index = 0) :
    h.undo = some h := by
  simp [undo, is_undo, h0]

end UndoHistory

@[simp]
theorem buildStack_length (u : Option (List Act)) (ts : List Transaction) :
    (buildStack u ts).length = ts.length + 1 := by
  induction ts generalizing u with
  | nil => rfl
  | cons t ts ih => simp [buildStack, ih]

theorem buildStack_getD_redoActs_lt (ts : List Transaction)
    (u : Option (List Act)) (i : ℕ) (hi : i < ts.length) :
    ((buildStack u ts).getD i ⟨none, none⟩).redoActs =
      some (ts.getD i ([], [])).2 := by
  induction ts generalizing u i with
  | nil => simp at hi
  | cons t ts ih =>
    cases i with
    | zero => simp [buildStack]
    | succ j => simpa [buildStack] using ih (some t.1) j (by simpa using hi)

theorem buildStack_getD_redoActs_ge (ts : List Transaction)
    (u : Option (List Act)) (i : ℕ) (hi : ts.length ≤ i) :
    ((buildStack u ts).getD i ⟨none, none⟩).redoActs = none := by
  induction ts generalizing u i with
  | nil =>
    cases i with
    | zero => simp [buildStack]
    | succ j => simp [buildStack]
  | cons t ts ih =>
    cases i with
    | zero => simp at hi
    | succ j => simpa [buildStack] using ih (some t.1) j (by simpa using hi)

theorem buildStack_getD_undoActs (ts : List Transaction)
    (u : Option (List Act)) (i : ℕ) (h0 : 0 < i) (hi : i ≤ ts.length) :
    ((buildStack u ts).getD i ⟨none, none⟩).undoActs =
      some (ts.getD (i - 1) ([], [])).1 := by
  induction ts generalizing u i with
  | nil => simp at hi; omega
  | cons t ts ih =>
    cases i with
    | zero => omega
    | succ j =>
      cases j with
      | zero =>
        cases ts with
        | nil => simp [buildStack]
        | cons t' ts' => simp [buildStack]
      | succ k =>
        have := ih (some t.1) (k + 1) (by omega) (by simpa using hi)
        simpa [buildStack] using this

theorem buildStack_getLast?_redoActs (ts : List Transaction)
    (u : Option (List Act)) :
    ((buildStack u ts).getLast?).map StackEntry.redoActs = some none := by
  induction ts generalizing u with
  | nil => rfl
  | cons t ts ih =>
    cases ts with
    | nil => rfl
    | cons t' ts' =>
      have h := ih (some t.1)
      simp only [buildStack] at h ⊢
      rw [List.getLast?_cons_cons]
      exact h

theorem buildStack_take_append (ts : List Transaction) (u : Option (List Act))
    (i : ℕ) (t : Transaction) (hi : i ≤ ts.length) :
    buildStack u (ts.take i ++ [t]) =
      (buildStack u ts).take i ++
        [⟨((buildStack u ts).getD i ⟨none, none⟩).undoActs, some t.2⟩,
         ⟨some t.1, none⟩] := by
  induction ts generalizing u i with
  | nil =>
    have h0 : i = 0 := by simpa using hi
    subst h0
    simp [buildStack]
  | cons p ps ih =>
    cases i with
    | zero => simp [buildStack]
    | succ j =>
      have hj : j ≤ ps.length := by simpa using hi
      have h := ih (some p.1) j hj
      simp only [List.take_succ_cons, List.cons_append, buildStack,
        List.getD_cons_succ, List.append_eq]
      rw [h]

/-- Applying `add_transaction` on a reachable stack shape: truncate to the first
`i` transactions and push the new one. -/
theorem add_transaction_buildStack (ts : List Transaction)
    (u : Option (List Act)) (i : ℕ) (t : Transaction) (si : ℤ)
    (hi : i ≤ ts.length) :
    UndoHistory.add_transaction t ⟨buildStack u ts, i, si⟩ =
      some ⟨buildStack u (ts.take i ++ [t]), i + 1, si⟩ := by
  have hwf : (⟨buildStack u ts, i, si⟩ : UndoHistory).index <
      (⟨buildStack u ts, i, si⟩ : UndoHistory).undo_stack.length := by
    simp only [buildStack_length]
    omega
  rw [UndoHistory.add_transaction_eq t _ hwf]
  rw [buildStack_take_append ts u i t hi]
  rfl

/-- Applying `undo` on a reachable stack shape just decrements the index. -/
theorem undo_buildStack (ts : List Transaction) (u : Option (List Act))
    (i : ℕ) (si : ℤ) (h0 : 0 < i) (hi : i ≤ ts.length) :
    UndoHistory.undo ⟨buildStack u ts, i, si⟩ =
      some ⟨buildStack u ts, i - 1, si⟩ := by
  refine UndoHistory.undo_eq _ h0 ?_ ?_
  · simp only [buildStack_length]
    omega
  · show ((buildStack u ts).getD i ⟨none, none⟩).undoActs.isSome
    rw [buildStack_getD_undoActs ts u i h0 hi]
    rfl

/-- Applying `redo` on a reachable stack shape keeps the stack and keeps the index
within range. -/
theorem redo_buildStack (ts : List Transaction) (u : Option (List Act))
    (i : ℕ) (si : ℤ) (hi : i ≤ ts.length) :
    ∃ i', UndoHistory.redo ⟨buildStack u ts, i, si⟩ =
        some ⟨buildStack u ts, i', si⟩ ∧ i' ≤ ts.length := by
  by_cases hr : UndoHistory.is_redo ⟨buildStack u ts, i, si⟩ = true
  · refine ⟨i + 1, by simp [UndoHistory.redo, hr], ?_⟩
    by_contra hcon
    have hge : ts.length ≤ i := by omega
    have hnone := buildStack_getD_redoActs_ge ts u i hge
    rw [UndoHistory.is_redo, UndoHistory.entryAt] at hr
    simp only at hr
    rw [hnone] at hr
    simp [truthy] at hr
  · have hr' : UndoHistory.is_redo ⟨buildStack u ts, i, si⟩ = false := by
      simpa using hr
    exact ⟨i, by simp [UndoHistory.redo, hr'], hi⟩

/-! ### Running call sequences -/

theorem runOps_append (a b : List HistOp) (h : UndoHistory) :
    runOps (a ++ b) h = (runOps a h).bind (runOps b) := by
  induction a generalizing h with
  | nil => rfl
  | cons op ops ih =>
    simp only [List.cons_append, runOps]
    cases applyOp op h with
    | none => rfl
    | some h' => exact ih h'

/-- Running `N` `add_transaction` calls from the tip of a reachable state
appends the transactions and moves the index to the new tip. -/
theorem runOps_adds (ts : List Transaction) (pre : List Transaction)
    (u : Option (List Act)) (si : ℤ) :
    runOps (ts.map HistOp.add) ⟨buildStack u pre, pre.length, si⟩ =
      some ⟨buildStack u (pre ++ ts), (pre ++ ts).length, si⟩ := by
  induction ts generalizing pre with
  | nil => simp [runOps]
  | cons t ts ih =>
    have hstep := add_transaction_buildStack pre u pre.length t si le_rfl
    rw [List.take_length] at hstep
    simp only [List.map_cons, runOps, applyOp, hstep]
    have h := ih (pre ++ [t])
    rw [List.append_assoc, List.singleton_append] at h
    rw [show pre.length + 1 = (pre ++ [t]).length by simp]
    exact h

/-- Running `M ≤ i` `undo` calls from index `i` of a reachable state
decrements the index by `M` and leaves the stack unchanged. -/
theorem runOps_undos (M : ℕ) (ts : List Transaction) (u : Option (List Act))
    (i : ℕ) (si : ℤ) (hM : M ≤ i) (hi : i ≤ ts.length) :
    runOps (List.replicate M HistOp.undo) ⟨buildStack u ts, i, si⟩ =
      some ⟨buildStack u ts, i - M, si⟩ := by
  induction M generalizing i with
  | zero => simp [runOps]
  | succ M ih =>
    rw [List.replicate_succ]
    simp only [runOps, applyOp]
    rw [undo_buildStack ts u i si (by omega) hi]
    have h := ih (i - 1) (by omega) (by omega)
    rw [show i - 1 - M = i - (M + 1) by omega] at h
    exact h

/-! ### Further helper lemmas -/

theorem getD_append_two_left {α : Type*} (A : List α) (b c d : α) :
    (A ++ [b, c]).getD A.length d = b := by
  rw [List.getD_eq_getElem?_getD, List.getElem?_append_right (le_refl A.length)]
  simp

theorem getD_append_two_right {α : Type*} (A : List α) (b c d : α) :
    (A ++ [b, c]).getD (A.length + 1) d = c := by
  rw [List.getD_eq_getElem?_getD, List.getElem?_append_right (by omega)]
  have h1 : A.length + 1 - A.length = 1 := by omega
  rw [h1]
  simp

/-- Inversion for a successful `undo` on a well-indexed state: the only
effect is decrementing `index`. -/
theorem UndoHistory.undo_inv (h h' : UndoHistory) (hpos : 0 < h.index)
    (hwf : h.index < h.undo_stack.length) (e : h.undo = some h') :
    h' = { h with index := h.index - 1 } := by
  have hget : h.undo_stack[h.index]? = some (h.entryAt h.index) := by
    rw [List.getElem?_eq_getElem hwf]
    simp [UndoHistory.entryAt, List.getD_eq_getElem?_getD,
      List.getElem?_eq_getElem hwf]
  have hu : h.is_undo = true := by simpa [UndoHistory.is_undo] using hpos
  cases hA : (h.entryAt h.index).undoActs with
  | none =>
    have hnone : h.undo = none := by
      rw [UndoHistory.undo, if_pos hu, hget]
      show (match (h.entryAt h.index).undoActs with
        | none => none
        | some _acts => some { h with index := h.index - 1 }) = none
      rw [hA]
    rw [hnone] at e
    exact absurd e (by simp)
  | some acts =>
    rw [UndoHistory.undo_eq h hpos hwf (by rw [hA]; rfl)] at e
    exact (Option.some.inj e).symm

/-! ### Reachability: every state reachable from a fresh history has the
`buildStack` shape -/

theorem reach_runOps (ops : List HistOp) :
    ∀ (ts : List Transaction) (i : ℕ) (si : ℤ), i ≤ ts.length →
    ∃ ts' i', runOps ops ⟨buildStack none ts, i, si⟩ =
        some ⟨buildStack none ts', i', si⟩ ∧ i' ≤ ts'.length := by
  induction ops with
  | nil => exact fun ts i si hi => ⟨ts, i, rfl, hi⟩
  | cons op ops ih =>
    intro ts i si hi
    cases op with
    | add t =>
      have hstep := add_transaction_buildStack ts none i t si hi
      simp only [runOps, applyOp, hstep]
      refine ih (ts.take i ++ [t]) (i + 1) si ?_
      simp only [List.length_append, List.length_take, Nat.min_eq_left hi]
      simp
    | undo =>
      rcases Nat.eq_zero_or_pos i with rfl | hpos
      · have hstep : UndoHistory.undo ⟨buildStack none ts, 0, si⟩ =
            some ⟨buildStack none ts, 0, si⟩ :=
          UndoHistory.undo_eq_of_index_zero _ rfl
        simp only [runOps, applyOp, hstep]
        exact ih ts 0 si (by omega)
      · have hstep := undo_buildStack ts none i si hpos hi
        simp only [runOps, applyOp, hstep]
        exact ih ts (i - 1) si (by omega)
    | redo =>
      obtain ⟨i', hstep, hi'⟩ := redo_buildStack ts none i si hi
      simp only [runOps, applyOp, hstep]
      exact ih ts i' si hi'

/-! ### Claims about `UndoHistory` -/

/-- Claim C1 (counterexample): take `N = 1`, `M = 1 ≤ N`, and the single
transaction `([], [])` (whose redo-action list is empty).  The claim
predicts `index = N - M = 0` (which holds) and `is_redo() = true`
(since `M > 0`), but `is_redo()` is `false`: `is_redo` tests the
truthiness of the stored redo-action list, and an empty list is falsy. -/
theorem c1_counterexample :
    (runOps [HistOp.add ([], []), HistOp.undo] UndoHistory.fresh).map
        (fun s => (s.index, s.is_redo)) = some (0, false) := by
  decide

/-- Claim C1 (amended): for every sequence of `N` `add_transaction` calls on
a fresh history followed by `M ≤ N` `undo` calls, no call raises,
afterwards `index = N - M`, and — provided every added transaction has a
non-empty redo-action list — `is_redo()` returns true exactly when
`M > 0`. -/
theorem c1_adds_then_undos (ts : List Transaction) (M : ℕ)
    (hM : M ≤ ts.length) :
    ∃ s, runOps (ts.map HistOp.add ++ List.replicate M HistOp.undo)
        UndoHistory.fresh = some s ∧
      s.index = ts.length - M ∧
      ((∀ t ∈ ts, t.2 ≠ []) → s.is_redo = decide (0 < M)) := by
  refine ⟨⟨buildStack none ts, ts.length - M, 0⟩, ?_, rfl, ?_⟩
  · rw [runOps_append]
    have h1 : runOps (ts.map HistOp.add) UndoHistory.fresh =
        some ⟨buildStack none ts, ts.length, 0⟩ :=
      runOps_adds ts [] none 0
    rw [h1]
    exact runOps_undos M ts none ts.length 0 hM le_rfl
  · intro hne
    show truthy ((buildStack none ts).getD (ts.length - M)
      ⟨none, none⟩).redoActs = decide (0 < M)
    rcases Nat.eq_zero_or_pos M with rfl | hM0
    · rw [Nat.sub_zero, buildStack_getD_redoActs_ge ts none ts.length le_rfl]
      rfl
    · have hlt : ts.length - M < ts.length := by omega
      rw [buildStack_getD_redoActs_lt ts none _ hlt]
      have hmem : (ts.getD (ts.length - M) ([], [])) ∈ ts := by
        rw [List.getD_eq_getElem _ _ hlt]
        exact List.getElem_mem _
      have hne' := hne _ hmem
      have h2 : decide (0 < M) = true := by simpa using hM0
      rw [h2]
      simp only [truthy, Bool.not_eq_true']
      exact List.isEmpty_eq_false.mpr hne'

/-- Claim C1 (witness for the amended claim): one transaction with a
non-empty redo list followed by one undo gives `index = 0` and
`is_redo() = true`. -/
theorem c1_adds_then_undos_witness :
    ∃ s, runOps ([(([0], [1]) : Transaction)].map HistOp.add ++
        List.replicate 1 HistOp.undo) UndoHistory.fresh = some s ∧
      s.index = [(([0], [1]) : Transaction)].length - 1 ∧
      s.is_redo = decide (0 < 1) := by
  obtain ⟨s, h1, h2, h3⟩ := c1_adds_then_undos [([0], [1])] 1 (by decide)
  exact ⟨s, h1, h2, h3 (by decide)⟩

/-- Claim C3: the code's behavior on a freshly created `UndoHistory`.  The
claim (and the source's own comment, canvas.py line 39) says
`saved_index == -1` and `is_saved() == false` before any `set_saved()`;
the code instead initializes the class attribute `saved_index = 0`, so a
fresh history reports `is_saved() == true`. -/
theorem c3_fresh_saved_state :
    UndoHistory.fresh.saved_index = 0 ∧
    UndoHistory.fresh.saved_index ≠ -1 ∧
    UndoHistory.fresh.is_saved = true := by
  decide

/-- Claim C9: starting from a fresh history, every sequence of
`add_transaction`, `undo` and `redo` calls succeeds and preserves the
invariant `0 ≤ index ≤ len(undo_stack) - 1` together with the fact that
the last stack entry's redo actions are `None` (hence `redo()` can never
advance `index` past the tip). -/
theorem c9_history_invariant (ops : List HistOp) :
    ∃ s, runOps ops UndoHistory.fresh = some s ∧
      s.index ≤ s.undo_stack.length - 1 ∧
      (s.undo_stack.getLast?).map StackEntry.redoActs = some none := by
  obtain ⟨ts', i', h, hi'⟩ := reach_runOps ops [] 0 0 (by simp)
  refine ⟨⟨buildStack none ts', i', 0⟩, h, ?_, ?_⟩
  · simp only [buildStack_length]
    omega
  · exact buildStack_getLast?_redoActs ts' none

/-- After any successful `add_transaction` on a well-indexed state, the
new state is at the tip of its stack and `is_redo()` is false. -/
theorem is_redo_after_add (h : UndoHistory) (t : Transaction)
    (h₂ : UndoHistory) (hwf : h.index < h.undo_stack.length)
    (e : h.add_transaction t = some h₂) :
    h₂.is_redo = false ∧ h₂.undo_stack.length = h₂.index + 1 := by
  rw [UndoHistory.add_transaction_eq t h hwf] at e
  have e' := Option.some.inj e
  subst e'
  have hAl : (h.undo_stack.take h.index).length = h.index := by
    rw [List.length_take]; omega
  constructor
  · show truthy ((h.undo_stack.take h.index ++
      [StackEntry.mk (h.entryAt h.index).undoActs (some t.2),
       StackEntry.mk (some t.1) none]).getD
        (h.index + 1) (StackEntry.mk none none)).redoActs = false
    have hc := getD_append_two_right (h.undo_stack.take h.index)
      (StackEntry.mk (h.entryAt h.index).undoActs (some t.2))
      (StackEntry.mk (some t.1) none) (StackEntry.mk none none)
    rw [hAl] at hc
    rw [hc]
    rfl
  · show (h.undo_stack.take h.index ++
      [StackEntry.mk (h.entryAt h.index).undoActs (some t.2),
       StackEntry.mk (some t.1) none]).length = (h.index + 1) + 1
    simp [hAl]

/-- Claim C2: on every well-indexed history state in which `is_undo()`
holds, performing `undo()` and then `add_transaction(t)` yields a state
whose stack ends exactly at its index (all transactions after the index
were dropped, not merged) and whose `is_redo()` is false: the redo entry
made available by the undo has been discarded. -/
theorem c2_undo_then_add_discards_redo (h h₁ h₂ : UndoHistory)
    (t : Transaction)
    (hwf : h.index < h.undo_stack.length)
    (hu : h.is_undo = true)
    (e1 : h.undo = some h₁)
    (e2 : h₁.add_transaction t = some h₂) :
    h₂.is_redo = false ∧ h₂.undo_stack.length = h₂.index + 1 := by
  have hpos : 0 < h.index := by simpa [UndoHistory.is_undo] using hu
  have e1' := UndoHistory.undo_inv h h₁ hpos hwf e1
  subst e1'
  exact is_redo_after_add _ t h₂ (by show h.index - 1 < h.undo_stack.length; omega) e2

/-- Claim C2 (witness): a concrete two-entry history at its tip, undone once
and then extended with a fresh transaction: `is_redo()` is false and the
stack ends at the index. -/
theorem c2_undo_then_add_discards_redo_witness :
    UndoHistory.is_redo ⟨[⟨none, some [3]⟩, ⟨some [2], none⟩], 1, 0⟩ = false ∧
    (UndoHistory.mk [⟨none, some [3]⟩, ⟨some [2], none⟩] 1 0).undo_stack.length =
      (UndoHistory.mk [⟨none, some [3]⟩, ⟨some [2], none⟩] 1 0).index + 1 :=
  c2_undo_then_add_discards_redo
    ⟨[⟨none, some [1]⟩, ⟨some [0], none⟩], 1, 0⟩
    ⟨[⟨none, some [1]⟩, ⟨some [0], none⟩], 0, 0⟩
    ⟨[⟨none, some [3]⟩, ⟨some [2], none⟩], 1, 0⟩
    ([2], [3]) (by decide) (by decide) (by decide) (by decide)

/-- Claim C10: a transaction whose redo-action list is empty behaves, after
being undone, as if it had no redo entry: from any well-indexed state,
`add_transaction((u, []))` followed by `undo()` yields a state whose
`is_redo()` is false and on which `redo()` is a no-op, returning the
state (index and undo stack) unchanged. -/
theorem c10_empty_redo_list_noop (h h₁ h₂ : UndoHistory) (t : Transaction)
    (ht : t.2 = [])
    (hwf : h.index < h.undo_stack.length)
    (e1 : h.add_transaction t = some h₁)
    (e2 : h₁.undo = some h₂) :
    h₂.is_redo = false ∧ h₂.redo = some h₂ := by
  rw [UndoHistory.add_transaction_eq t h hwf] at e1
  have e1' := Option.some.inj e1
  subst e1'
  have hAl : (h.undo_stack.take h.index).length = h.index := by
    rw [List.length_take]; omega
  have hb := getD_append_two_left (h.undo_stack.take h.index)
    (StackEntry.mk (h.entryAt h.index).undoActs (some t.2))
    (StackEntry.mk (some t.1) none) (StackEntry.mk none none)
  rw [hAl] at hb
  have hc := getD_append_two_right (h.undo_stack.take h.index)
    (StackEntry.mk (h.entryAt h.index).undoActs (some t.2))
    (StackEntry.mk (some t.1) none) (StackEntry.mk none none)
  rw [hAl] at hc
  have hwf₁ : h.index + 1 < (h.undo_stack.take h.index ++
      [StackEntry.mk (h.entryAt h.index).undoActs (some t.2),
       StackEntry.mk (some t.1) none]).length := by
    simp [hAl]
  have hacts : ((h.undo_stack.take h.index ++
      [StackEntry.mk (h.entryAt h.index).undoActs (some t.2),
       StackEntry.mk (some t.1) none]).getD (h.index + 1)
        (StackEntry.mk none none)).undoActs.isSome := by
    rw [hc]
    rfl
  have e2' := UndoHistory.undo_eq
    { h with
      undo_stack := h.undo_stack.take h.index ++
        [StackEntry.mk (h.entryAt h.index).undoActs (some t.2),
         StackEntry.mk (some t.1) none],
      index := h.index + 1 }
    (Nat.succ_pos _) hwf₁ hacts
  have e2x := Option.some.inj (e2'.symm.trans e2)
  subst e2x
  have hIr : UndoHistory.is_redo
      { h with
        undo_stack := h.undo_stack.take h.index ++
          [StackEntry.mk (h.entryAt h.index).undoActs (some t.2),
           StackEntry.mk (some t.1) none],
        index := h.index } = false := by
    show truthy ((h.undo_stack.take h.index ++
      [StackEntry.mk (h.entryAt h.index).undoActs (some t.2),
       StackEntry.mk (some t.1) none]).getD h.index
        (StackEntry.mk none none)).redoActs = false
    rw [hb, ht]
    rfl
  refine ⟨hIr, ?_⟩
  show UndoHistory.redo
      { h with
        undo_stack := h.undo_stack.take h.index ++
          [StackEntry.mk (h.entryAt h.index).undoActs (some t.2),
           StackEntry.mk (some t.1) none],
        index := h.index } =
    some { h with
        undo_stack := h.undo_stack.take h.index ++
          [StackEntry.mk (h.entryAt h.index).undoActs (some t.2),
           StackEntry.mk (some t.1) none],
        index := h.index }
  simp [UndoHistory.redo, hIr]

/-- Claim C10 (witness): from a fresh history, `add_transaction(([7], []))`
then `undo()` gives a state with `is_redo() = false` on which `redo()`
is a no-op. -/
theorem c10_empty_redo_list_noop_witness :
    UndoHistory.is_redo ⟨[⟨none, some []⟩, ⟨some [7], none⟩], 0, 0⟩ = false ∧
    UndoHistory.redo ⟨[⟨none, some []⟩, ⟨some [7], none⟩], 0, 0⟩ =
      some ⟨[⟨none, some []⟩, ⟨some [7], none⟩], 0, 0⟩ :=
  c10_empty_redo_list_noop UndoHistory.fresh
    ⟨[⟨none, some []⟩, ⟨some [7], none⟩], 1, 0⟩
    ⟨[⟨none, some []⟩, ⟨some [7], none⟩], 0, 0⟩
    ([7], []) (by decide) (by decide) (by decide) (by decide)

/-- Claim C6: `in_bbox` is strict-inequality containment — boundary points
are excluded; in particular `in_bbox((0,0,10,10), (0,5))` is false and
`in_bbox((0,0,10,10), (5,5))` is true. -/
theorem c6_in_bbox_strict :
    (∀ x0 y0 x1 y1 x y : ℚ,
      in_bbox (x0, y0, x1, y1) (x, y) = true ↔
        (x0 < x ∧ x < x1 ∧ y0 < y ∧ y < y1)) ∧
    in_bbox (0, 0, 10, 10) (0, 5) = false ∧
    in_bbox (0, 0, 10, 10) (5, 5) = true := by
  refine ⟨?_, ?_, ?_⟩
  · intro x0 y0 x1 y1 x y
    simp [in_bbox, and_assoc]
  · simp [in_bbox]
  · norm_num [in_bbox]

/-- Claim C5: every `on_scroll` call leaves `dy` clamped into
`[0, max(0, virtual_h - height)]`; in particular with `virtual_h = 1000`
and `height = 300`, after any sequence of scroll-wheel deltas starting
from `dy = 0` the offset always lies in `[0, 700]`. -/
theorem c5_scroll_clamp :
    (∀ sensitivity virtual_h height dy delta : ℚ,
      0 ≤ on_scroll sensitivity virtual_h height dy delta ∧
      on_scroll sensitivity virtual_h height dy delta ≤
        max 0 (virtual_h - height)) ∧
    (∀ (sensitivity : ℚ) (deltas : List ℚ),
      0 ≤ deltas.foldl (fun dy delta =>
        on_scroll sensitivity 1000 300 dy delta) 0 ∧
      deltas.foldl (fun dy delta =>
        on_scroll sensitivity 1000 300 dy delta) 0 ≤ 700) := by
  have main : ∀ s vh ht dy d : ℚ, 0 ≤ on_scroll s vh ht dy d ∧
      on_scroll s vh ht dy d ≤ max 0 (vh - ht) := by
    intro s vh ht dy d
    simp only [on_scroll]
    split_ifs with h1 h2
    · exact ⟨le_refl 0, le_max_left 0 (vh - ht)⟩
    · exact ⟨by linarith [h2.1], le_max_right 0 (vh - ht)⟩
    · push_neg at h1 h2
      refine ⟨h1.1, le_trans ?_ (le_max_right 0 (vh - ht))⟩
      by_cases hgt : ht < vh
      · exact h2 hgt
      · linarith [h1.2]
  refine ⟨main, ?_⟩
  intro s deltas
  suffices hgen : ∀ (ds : List ℚ) (dy : ℚ), 0 ≤ dy → dy ≤ 700 →
      0 ≤ ds.foldl (fun a d => on_scroll s 1000 300 a d) dy ∧
      ds.foldl (fun a d => on_scroll s 1000 300 a d) dy ≤ 700 by
    exact hgen deltas 0 le_rfl (by norm_num)
  intro ds
  induction ds with
  | nil => exact fun dy h0 h7 => ⟨h0, h7⟩
  | cons d ds ih =>
    intro dy h0 h7
    simp only [List.foldl_cons]
    have hm := main s 1000 300 dy d
    have hmax : max (0 : ℚ) (1000 - 300) = 700 := by norm_num
    rw [hmax] at hm
    exact ih _ hm.1 hm.2

/-- Claim C7: after `ScrollObj.paint` with viewport height `h` and content
height `virtual_h`: if `virtual_h > h` then `coef = h / virtual_h`, the
thumb rectangle has height `h * coef` and top `y = dy + dy * coef` (the
source formula, reproduced as-is), and `active` is true; otherwise the
thumb bbox is the empty `NO_BBOX`, `coef = 1.0`, and `active` is false. -/
theorem c7_scroll_thumb_geometry (scroll_hover scroll_normal : ℚ)
    (hover : Bool) (w h virtual_h dy : ℚ) :
    (virtual_h > h →
      (ScrollObj_paint scroll_hover scroll_normal hover w h virtual_h dy).coef
          = h / virtual_h ∧
      (ScrollObj_paint scroll_hover scroll_normal hover w h virtual_h dy).tbbox.2.2.2 -
        (ScrollObj_paint scroll_hover scroll_normal hover w h virtual_h dy).tbbox.2.1 =
          h * (ScrollObj_paint scroll_hover scroll_normal hover w h virtual_h dy).coef ∧
      (ScrollObj_paint scroll_hover scroll_normal hover w h virtual_h dy).tbbox.2.1 =
          dy + dy * (ScrollObj_paint scroll_hover scroll_normal hover w h virtual_h dy).coef ∧
      (ScrollObj_paint scroll_hover scroll_normal hover w h virtual_h dy).active = true) ∧
    (¬ virtual_h > h →
      (ScrollObj_paint scroll_hover scroll_normal hover w h virtual_h dy).tbbox
          = (0, 0, 0, 0) ∧
      (ScrollObj_paint scroll_hover scroll_normal hover w h virtual_h dy).coef = 1 ∧
      (ScrollObj_paint scroll_hover scroll_normal hover w h virtual_h dy).active = false) := by
  constructor
  · intro hgt
    simp only [ScrollObj_paint, if_pos hgt]
    refine ⟨?_, ?_, ?_, ?_⟩
    all_goals first
      | trivial
      | exact decide_eq_true hgt
      | ring
  · intro hle
    simp only [ScrollObj_paint, if_neg hle]
    refine ⟨?_, ?_, ?_⟩
    all_goals first
      | trivial
      | exact decide_eq_false hle

/-- Claim C7 (witness): concrete overflow and no-overflow instances. -/
theorem c7_scroll_thumb_geometry_witness :
    (ScrollObj_paint 10 5 false 100 50 200 7).coef = 50 / 200 ∧
    (ScrollObj_paint 10 5 false 100 50 30 7).active = false := by
  constructor
  · exact ((c7_scroll_thumb_geometry 10 5 false 100 50 200 7).1
      (by norm_num)).1
  · exact ((c7_scroll_thumb_geometry 10 5 false 100 50 30 7).2
      (by norm_num)).2.2

/-- Claim C4 (counterexample): with config `border = 10`,
`cell_width = 100` and a viewport of width `w = 20` (so
`cell_max = (20 - 20) // 100 = 0`), `Canvas.paint` raises
`ZeroDivisionError` at `math.ceil(cell_num / cell_max)`: the claimed
division-by-zero guard exists only in `AddButtonObj.paint`, not in
`Canvas.paint`. -/
theorem c4_counterexample :
    canvas_paint_layout 10 100 100 20 300 5 0 = none := by
  decide

/-- Claim C4 (amended): `AddButtonObj.paint` is guarded — with
`cell_max = 0` it computes `y_count = 0` and `x_count = cell_num`
without dividing — but the `Canvas.paint` layout raises
`ZeroDivisionError` exactly when `cells_per_row = (w - 2*border) //
cell_width` is 0 (for any non-degenerate `cell_width ≠ 0`). -/
theorem c4_divzero_guards (border cell_w cell_h w h cell_num : ℤ)
    (dy : ℚ) (hcw : cell_w ≠ 0) :
    (canvas_paint_layout border cell_w cell_h w h cell_num dy = none ↔
      Int.fdiv (w - 2 * border) cell_w = 0) ∧
    addButton_cell cell_num 0 = (cell_num, 0) := by
  constructor
  · simp only [canvas_paint_layout, if_neg hcw]
    split_ifs with h1
    · simp [h1]
    · simp [h1]
  · simp [addButton_cell]

/-- Claim C4 (witness): a wide-enough viewport does not raise, and the
guarded add-button layout at `cell_max = 0` places the button at
`(cell_num, 0)`. -/
theorem c4_divzero_guards_witness :
    ((canvas_paint_layout 10 100 100 500 300 12 0 = none ↔
      Int.fdiv (500 - 2 * 10) 100 = 0) ∧
     addButton_cell 12 0 = (12, 0)) :=
  c4_divzero_guards 10 100 100 500 300 12 0 (by decide)

theorem pyRound_nonneg {q : ℚ} (h : 0 ≤ q) : 0 ≤ pyRound q := by
  have hf : (0 : ℤ) ≤ Int.floor q := Int.le_floor.mpr (by exact_mod_cast h)
  simp only [pyRound]
  split_ifs <;> omega

theorem pyHexSlice2_of_nonneg {n : ℤ} (h : 0 ≤ n) :
    pyHexSlice2 n = hexDigits n.toNat := by
  simp [pyHexSlice2, h]

theorem map_toUpper_pad (l : List Char) :
    (if l.length < 2 then '0' :: l else l).map Char.toUpper =
      (if (l.map Char.toUpper).length < 2 then '0' :: l.map Char.toUpper
       else l.map Char.toUpper) := by
  simp only [List.length_map]
  split_ifs with h
  · rw [List.map_cons, show Char.toUpper '0' = '0' from by decide]
  · rfl

/-- The padded-uppercase-hex agreement between the source fold and the
specification's per-channel description, for non-negative channels. -/
theorem color_to_hex_eq_spec (color : List ℚ)
    (hc : ∀ c ∈ color, 0 ≤ c ∧ c ≤ 1) :
    color_to_hex color = specHexLabel color := by
  suffices hgen : ∀ (cs : List ℚ) (acc : List Char), (∀ c ∈ cs, 0 ≤ c) →
      (cs.foldl (fun hexcolor value =>
          let hexval := pyHexSlice2 (pyRound (value * 255))
          let hexval := if hexval.length < 2 then '0' :: hexval else hexval
          hexcolor ++ hexval) acc).map Char.toUpper =
        acc.map Char.toUpper ++
        (cs.map (fun c =>
          let s := (hexDigits (pyRound (c * 255)).toNat).map Char.toUpper
          if s.length < 2 then '0' :: s else s)).flatten by
    simp only [color_to_hex]
    rw [hgen color ['#'] (fun c hmem => (hc c hmem).1)]
    simp [specHexLabel, show Char.toUpper '#' = '#' from by decide]
  intro cs
  induction cs with
  | nil =>
    intro acc h
    simp
  | cons v vs ih =>
    intro acc hcs
    simp only [List.foldl_cons, List.map_cons, List.flatten_cons]
    rw [ih _ (fun c hm => hcs c (List.mem_cons_of_mem _ hm))]
    rw [List.map_append, List.append_assoc]
    congr 1
    congr 1
    have hv0 : (0 : ℚ) ≤ v * 255 :=
      mul_nonneg (hcs v (List.mem_cons_self _ _)) (by norm_num)
    rw [pyHexSlice2_of_nonneg (pyRound_nonneg hv0)]
    exact map_toUpper_pad _

/-- Claim C8: for channels in `[0, 1]`, `color_to_hex` produces the hex
label described by the spec — each channel times 255 rounded to the
nearest integer, two-digit zero-padded uppercase hex, prefixed `'#'` —
and in particular maps `(1.0, 0.0, 0.0)` to `"#FF0000"` and
`(0.0, 0.0, 0.0)` to `"#000000"`. -/
theorem c8_color_to_hex :
    (∀ color : List ℚ, (∀ c ∈ color, 0 ≤ c ∧ c ≤ 1) →
      color_to_hex color = specHexLabel color) ∧
    color_to_hex [1, 0, 0] = "#FF0000".toList ∧
    color_to_hex [0, 0, 0] = "#000000".toList := by
  have e1 : pyRound ((1 : ℚ) * 255) = 255 := by norm_num [pyRound]
  have e0 : pyRound ((0 : ℚ) * 255) = 0 := by norm_num [pyRound]
  refine ⟨fun color hc => color_to_hex_eq_spec color hc, ?_, ?_⟩
  · simp only [color_to_hex, List.foldl_cons, List.foldl_nil, e1, e0]
    decide
  · simp only [color_to_hex, List.foldl_cons, List.foldl_nil, e0]
    decide

/-- Claim C8 (witness): the half-intensity channel `1/2` (a tie at 127.5,
rounded to the even 128, i.e. `"80"`). -/
theorem c8_color_to_hex_witness :
    color_to_hex [1/2] = specHexLabel [1/2] :=
  c8_color_to_hex.1 [1/2] (by
    intro c hc
    rw [List.mem_singleton] at hc
    subst hc
    norm_num)
